import Mathlib

/-
Shallow embedding of the Aidon AMS telemetry decoder
(pkg/protocol/protocol.go and the relevant parts of main.go).

The Go code reads from an io.Reader; we model a byte cursor as a
`List Nat` of bytes, and every parser returns `Except Err (α × List Nat)`:
on success the parsed value together with the remaining bytes, on failure
the error the Go function returns.  Go `any` values produced by the
decoder are modelled by the inductive `GoVal`; note that ParseCode,
ParseString and ParseEnum all return Go `string`s, so all three decode to
the same `GoVal.str` variant, exactly as in the source.
-/

namespace Aidon

/-- Errors returned by the Go parser functions.  `truncated` stands for
the io.EOF / io.ErrUnexpectedEOF returned by io.ReadFull and binary.Read;
the other constructors stand for the fmt.Errorf values in protocol.go
(`not a code`, `unknown enum index %d`, `unrecognized datatype: %d`,
`top-level structure not of array type`, `sub-level data not of array
type`, `sub-level data does not contain at least two entries`,
`first entry not string type; unusable as key`). -/
inductive Err where
  | truncated
  | notACode
  | unknownEnum (code : Nat)
  | unrecognizedType (tag : Nat)
  | topLevelNotArray
  | subLevelNotArray
  | tooFewEntries
  | keyNotString
deriving Repr, DecidableEq

/-- Model of the Go `any` values produced by the decoder.  Go strings are
`str`, the fixed-width integers keep their width and signedness, and both
wire arrays and structures decode to `arr` (Go `[]any`). -/
inductive GoVal where
  | goNil
  | str (s : String)
  | u8 (n : Nat)
  | u16 (n : Nat)
  | u32 (n : Nat)
  | i8 (n : Int)
  | i16 (n : Int)
  | i32 (n : Int)
  | arr (xs : List GoVal)
deriving Repr

/-- Go `string(buf)` on a byte slice: the bytes, as a string.  Byte
equality coincides with equality of the resulting strings, so this is a
faithful model of Go string values and their equality. -/
def goStr (bs : List Nat) : String :=
  String.mk (bs.map Char.ofNat)

/-- ParseString: read one length byte, then that many bytes, returned as
a Go string; io.ReadFull fails when fewer bytes are available. -/
def ParseString : List Nat → Except Err (String × List Nat)
  | [] => .error .truncated
  | n :: rest =>
    if n ≤ rest.length then .ok (goStr (rest.take n), rest.drop n)
    else .error .truncated

/-- Rendering of a 6-byte OBIS code:
fmt.Sprintf of the pattern percent-d dash percent-d colon (etc.). -/
def renderCode (b0 b1 b2 b3 b4 b5 : Nat) : String :=
  toString b0 ++ "-" ++ toString b1 ++ ":" ++ toString b2 ++ "." ++
    toString b3 ++ "." ++ toString b4 ++ "." ++ toString b5

/-- ParseCode: read one length byte, then that many bytes; the read
happens before the `strlen != 6` check, so a truncated read reports
`truncated` and only an available-but-wrong length reports `notACode`. -/
def ParseCode : List Nat → Except Err (String × List Nat)
  | [] => .error .truncated
  | n :: rest =>
    if n ≤ rest.length then
      if n = 6 then
        match rest with
        | b0 :: b1 :: b2 :: b3 :: b4 :: b5 :: r =>
          .ok (renderCode b0 b1 b2 b3 b4 b5, r)
        | _ => .error .truncated
      else .error .notACode
    else .error .truncated

/-- ParseUint8 via binary.Read: one byte, big-endian. -/
def ParseUint8 : List Nat → Except Err (Nat × List Nat)
  | b :: rest => .ok (b, rest)
  | [] => .error .truncated

/-- ParseUint16 via binary.Read: two bytes, big-endian. -/
def ParseUint16 : List Nat → Except Err (Nat × List Nat)
  | b0 :: b1 :: rest => .ok (b0 * 256 + b1, rest)
  | _ => .error .truncated

/-- ParseUint32 via binary.Read: four bytes, big-endian. -/
def ParseUint32 : List Nat → Except Err (Nat × List Nat)
  | b0 :: b1 :: b2 :: b3 :: rest =>
    .ok (((b0 * 256 + b1) * 256 + b2) * 256 + b3, rest)
  | _ => .error .truncated

/-- ParseInt8: one byte, interpreted as two's-complement int8. -/
def ParseInt8 : List Nat → Except Err (Int × List Nat)
  | b :: rest => .ok (if b < 128 then (b : Int) else (b : Int) - 256, rest)
  | [] => .error .truncated

/-- ParseInt16: two bytes big-endian, two's-complement int16. -/
def ParseInt16 : List Nat → Except Err (Int × List Nat)
  | b0 :: b1 :: rest =>
    .ok (if b0 * 256 + b1 < 32768 then ((b0 * 256 + b1 : Nat) : Int)
         else ((b0 * 256 + b1 : Nat) : Int) - 65536, rest)
  | _ => .error .truncated

/-- ParseInt32: four bytes big-endian, two's-complement int32. -/
def ParseInt32 : List Nat → Except Err (Int × List Nat)
  | b0 :: b1 :: b2 :: b3 :: rest =>
    .ok (if ((b0 * 256 + b1) * 256 + b2) * 256 + b3 < 2147483648 then
           ((((b0 * 256 + b1) * 256 + b2) * 256 + b3 : Nat) : Int)
         else ((((b0 * 256 + b1) * 256 + b2) * 256 + b3 : Nat) : Int) - 4294967296, rest)
  | _ => .error .truncated

/-- ParseEnum: one byte, mapped through the closed 7-entry unit table of
protocol.go; any other byte yields the `unknown enum index` error. -/
def ParseEnum : List Nat → Except Err (String × List Nat)
  | [] => .error .truncated
  | b :: rest =>
    if b = 27 then .ok ("W", rest)
    else if b = 28 then .ok ("VA", rest)
    else if b = 29 then .ok ("VAr", rest)
    else if b = 30 then .ok ("Wh", rest)
    else if b = 32 then .ok ("VArh", rest)
    else if b = 33 then .ok ("A", rest)
    else if b = 35 then .ok ("V", rest)
    else .error (.unknownEnum b)

/-- The element loop of ParseArray: decode `k` values with the element
parser `p`, threading the cursor; the first failure aborts the loop, as
the Go loop returns on the first non-nil error. -/
def parseElems (p : List Nat → Except Err (GoVal × List Nat)) :
    Nat → List Nat → Except Err (List GoVal × List Nat)
  | 0, l => .ok ([], l)
  | k + 1, l =>
    match p l with
    | .error e => .error e
    | .ok (v, r) =>
      match parseElems p k r with
      | .error e => .error e
      | .ok (vs, r2) => .ok (v :: vs, r2)

/-- ParseArray, parameterised by the element parser: read a 1-byte count
`n`, then decode exactly `n` elements. -/
def ParseArrayWith (p : List Nat → Except Err (GoVal × List Nat)) :
    List Nat → Except Err (GoVal × List Nat)
  | [] => .error .truncated
  | n :: rest => (parseElems p n rest).map fun q => (GoVal.arr q.1, q.2)

/-- ParseAny with explicit fuel for the recursion into arrays and
structures.  The Go function recurses without bound; since each recursive
call first consumes at least one byte, fuel equal to the input length is
always sufficient (`parseAnyF_ok` below makes the fuel irrelevance
precise).  The tag dispatch is the switch of protocol.go. -/
def parseAnyF : Nat → List Nat → Except Err (GoVal × List Nat)
  | 0, _ => .error .truncated
  | fuel + 1, l =>
    match l with
    | [] => .error .truncated
    | t :: rest =>
      if t = 0 then .ok (.goNil, rest)
      else if t = 1 ∨ t = 2 then ParseArrayWith (fun l2 => parseAnyF fuel l2) rest
      else if t = 9 then (ParseCode rest).map fun q => (GoVal.str q.1, q.2)
      else if t = 10 ∨ t = 12 then (ParseString rest).map fun q => (GoVal.str q.1, q.2)
      else if t = 15 then (ParseInt8 rest).map fun q => (GoVal.i8 q.1, q.2)
      else if t = 16 then (ParseInt16 rest).map fun q => (GoVal.i16 q.1, q.2)
      else if t = 17 then (ParseUint8 rest).map fun q => (GoVal.u8 q.1, q.2)
      else if t = 18 then (ParseUint16 rest).map fun q => (GoVal.u16 q.1, q.2)
      else if t = 5 then (ParseInt32 rest).map fun q => (GoVal.i32 q.1, q.2)
      else if t = 6 then (ParseUint32 rest).map fun q => (GoVal.u32 q.1, q.2)
      else if t = 22 then (ParseEnum rest).map fun q => (GoVal.str q.1, q.2)
      else .error (.unrecognizedType t)

/-- ParseAny on a byte record: the fuel is the record length, which is
always enough because every recursion step first consumes a byte. -/
def ParseAny (l : List Nat) : Except Err (GoVal × List Nat) :=
  parseAnyF l.length l

/-- Insertion into the Go map `result`: overwrite the value if the key is
present, otherwise add the pair.  The association list keeps first-insert
order; as a key-to-value mapping this is exactly the Go map. -/
def mapSet : List (String × GoVal) → String → GoVal → List (String × GoVal)
  | [], k, v => [(k, v)]
  | (k0, v0) :: rest, k, v =>
    if k0 = k then (k, v) :: rest else (k0, v0) :: mapSet rest k v

/-- The loop body of ParseFlattened over the elements of the top-level
array: each element must be a Go `[]any` of length at least two whose
first entry type-asserts to `string`; then `result[key] = subarr[1]`. -/
def flattenItems (acc : List (String × GoVal)) :
    List GoVal → Except Err (List (String × GoVal))
  | [] => .ok acc
  | item :: rest =>
    match item with
    | .arr (.str k :: v :: _) => flattenItems (mapSet acc k v) rest
    | .arr (_ :: _ :: _) => .error .keyNotString
    | .arr _ => .error .tooFewEntries
    | _ => .error .subLevelNotArray

/-- ParseFlattened: decode one value, require it to be a Go `[]any`, and
flatten its elements into the result map; any leftover input bytes are
ignored.  On any error no map is returned (Go returns `nil, err`). -/
def ParseFlattened (l : List Nat) : Except Err (List (String × GoVal)) :=
  match ParseAny l with
  | .error e => .error e
  | .ok (data, _) =>
    match data with
    | .arr items => flattenItems [] items
    | _ => .error .topLevelNotArray

/-- Key/value extraction from one well-formed element of the top-level
array: the first entry when it is a Go string, paired with the second. -/
def keyVal : GoVal → Option (String × GoVal)
  | .arr (.str k :: v :: _) => some (k, v)
  | _ => none

/-- Unfolding equation for `parseAnyF` with positive fuel on a nonempty
cursor; this is the tag-dispatch switch of ParseAny. -/
theorem parseAnyF_succ (fuel t : Nat) (rest : List Nat) :
    parseAnyF (fuel + 1) (t :: rest) =
      (if t = 0 then .ok (.goNil, rest)
      else if t = 1 ∨ t = 2 then ParseArrayWith (fun l2 => parseAnyF fuel l2) rest
      else if t = 9 then (ParseCode rest).map fun q => (GoVal.str q.1, q.2)
      else if t = 10 ∨ t = 12 then (ParseString rest).map fun q => (GoVal.str q.1, q.2)
      else if t = 15 then (ParseInt8 rest).map fun q => (GoVal.i8 q.1, q.2)
      else if t = 16 then (ParseInt16 rest).map fun q => (GoVal.i16 q.1, q.2)
      else if t = 17 then (ParseUint8 rest).map fun q => (GoVal.u8 q.1, q.2)
      else if t = 18 then (ParseUint16 rest).map fun q => (GoVal.u16 q.1, q.2)
      else if t = 5 then (ParseInt32 rest).map fun q => (GoVal.i32 q.1, q.2)
      else if t = 6 then (ParseUint32 rest).map fun q => (GoVal.u32 q.1, q.2)
      else if t = 22 then (ParseEnum rest).map fun q => (GoVal.str q.1, q.2)
      else .error (.unrecognizedType t)) := rfl

theorem parseAnyF_zero (l : List Nat) : parseAnyF 0 l = .error .truncated := rfl

theorem parseAnyF_succ_nil (fuel : Nat) :
    parseAnyF (fuel + 1) [] = .error .truncated := rfl

/-- Consumption and extension property for `ParseString`: a success
consumed a nonempty prefix, and reparsing that prefix with anything
appended gives the same value with the appendix untouched. -/
theorem ParseString_ok {l : List Nat} {s : String} {r : List Nat}
    (h : ParseString l = .ok (s, r)) :
    ∃ c, l = c ++ r ∧ 1 ≤ c.length ∧
      ∀ ext, ParseString (c ++ ext) = .ok (s, ext) := by
  match l with
  | [] => simp [ParseString] at h
  | n :: rest =>
    simp only [ParseString] at h
    split at h
    · rename_i hle
      simp only [Except.ok.injEq, Prod.mk.injEq] at h
      obtain ⟨hs, hr⟩ := h
      have htk : (rest.take n).length = n := by
        simp [List.length_take, Nat.min_eq_left hle]
      refine ⟨n :: rest.take n, ?_, by simp, ?_⟩
      · rw [← hr]; simp [List.take_append_drop]
      · intro ext
        simp only [List.cons_append, ParseString]
        rw [if_pos (by simp [List.length_append, htk])]
        rw [List.take_left' htk, List.drop_left' htk, hs]
    · exact absurd h (by simp)

/-- Consumption and extension property for `ParseCode`. -/
theorem ParseCode_ok {l : List Nat} {s : String} {r : List Nat}
    (h : ParseCode l = .ok (s, r)) :
    ∃ c, l = c ++ r ∧ 1 ≤ c.length ∧
      ∀ ext, ParseCode (c ++ ext) = .ok (s, ext) := by
  match l with
  | [] => simp [ParseCode] at h
  | n :: rest =>
    simp only [ParseCode] at h
    split at h
    · rename_i hle
      split at h
      · rename_i h6
        subst h6
        match rest, h with
        | b0 :: b1 :: b2 :: b3 :: b4 :: b5 :: rr, h =>
          simp only [Except.ok.injEq, Prod.mk.injEq] at h
          obtain ⟨hs, hr⟩ := h
          refine ⟨6 :: b0 :: b1 :: b2 :: b3 :: b4 :: b5 :: [], by simp [hr], by simp, ?_⟩
          intro ext
          simp [ParseCode, hs]
      · exact absurd h (by simp)
    · exact absurd h (by simp)

/-- Consumption and extension property for `ParseEnum`. -/
theorem ParseEnum_ok {l : List Nat} {s : String} {r : List Nat}
    (h : ParseEnum l = .ok (s, r)) :
    ∃ c, l = c ++ r ∧ 1 ≤ c.length ∧
      ∀ ext, ParseEnum (c ++ ext) = .ok (s, ext) := by
  match l with
  | [] => simp [ParseEnum] at h
  | b :: rest =>
    simp only [ParseEnum] at h
    split_ifs at h with h27 h28 h29 h30 h32 h33 h35
    all_goals
      simp only [Except.ok.injEq, Prod.mk.injEq] at h
      obtain ⟨hs, hr⟩ := h
      subst hr
      exact ⟨[b], by simp, by simp, fun ext => by
        subst hs; simp_all [ParseEnum]⟩

/-- Consumption and extension property for `ParseUint8`. -/
theorem ParseUint8_ok {l : List Nat} {a : Nat} {r : List Nat}
    (h : ParseUint8 l = .ok (a, r)) :
    ∃ c, l = c ++ r ∧ 1 ≤ c.length ∧
      ∀ ext, ParseUint8 (c ++ ext) = .ok (a, ext) := by
  match l with
  | [] => simp [ParseUint8] at h
  | b :: rest =>
    simp only [ParseUint8, Except.ok.injEq, Prod.mk.injEq] at h
    obtain ⟨ha, hr⟩ := h
    exact ⟨[b], by simp [hr], by simp, fun ext => by simp [ParseUint8, ha]⟩

/-- Consumption and extension property for `ParseUint16`. -/
theorem ParseUint16_ok {l : List Nat} {a : Nat} {r : List Nat}
    (h : ParseUint16 l = .ok (a, r)) :
    ∃ c, l = c ++ r ∧ 1 ≤ c.length ∧
      ∀ ext, ParseUint16 (c ++ ext) = .ok (a, ext) := by
  match l with
  | [] => simp [ParseUint16] at h
  | [b] => simp [ParseUint16] at h
  | b0 :: b1 :: rest =>
    simp only [ParseUint16, Except.ok.injEq, Prod.mk.injEq] at h
    obtain ⟨ha, hr⟩ := h
    exact ⟨[b0, b1], by simp [hr], by simp, fun ext => by simp [ParseUint16, ha]⟩

/-- Consumption and extension property for `ParseUint32`. -/
theorem ParseUint32_ok {l : List Nat} {a : Nat} {r : List Nat}
    (h : ParseUint32 l = .ok (a, r)) :
    ∃ c, l = c ++ r ∧ 1 ≤ c.length ∧
      ∀ ext, ParseUint32 (c ++ ext) = .ok (a, ext) := by
  match l with
  | [] => simp [ParseUint32] at h
  | [b] => simp [ParseUint32] at h
  | [b, b1] => simp [ParseUint32] at h
  | [b, b1, b2] => simp [ParseUint32] at h
  | b0 :: b1 :: b2 :: b3 :: rest =>
    simp only [ParseUint32, Except.ok.injEq, Prod.mk.injEq] at h
    obtain ⟨ha, hr⟩ := h
    exact ⟨[b0, b1, b2, b3], by simp [hr], by simp, fun ext => by simp [ParseUint32, ha]⟩

/-- Consumption and extension property for `ParseInt8`. -/
theorem ParseInt8_ok {l : List Nat} {a : Int} {r : List Nat}
    (h : ParseInt8 l = .ok (a, r)) :
    ∃ c, l = c ++ r ∧ 1 ≤ c.length ∧
      ∀ ext, ParseInt8 (c ++ ext) = .ok (a, ext) := by
  match l with
  | [] => simp [ParseInt8] at h
  | b :: rest =>
    simp only [ParseInt8, Except.ok.injEq, Prod.mk.injEq] at h
    obtain ⟨ha, hr⟩ := h
    exact ⟨[b], by simp [hr], by simp, fun ext => by simp [ParseInt8, ha]⟩

/-- Consumption and extension property for `ParseInt16`. -/
theorem ParseInt16_ok {l : List Nat} {a : Int} {r : List Nat}
    (h : ParseInt16 l = .ok (a, r)) :
    ∃ c, l = c ++ r ∧ 1 ≤ c.length ∧
      ∀ ext, ParseInt16 (c ++ ext) = .ok (a, ext) := by
  match l with
  | [] => simp [ParseInt16] at h
  | [b] => simp [ParseInt16] at h
  | b0 :: b1 :: rest =>
    simp only [ParseInt16, Except.ok.injEq, Prod.mk.injEq] at h
    obtain ⟨ha, hr⟩ := h
    exact ⟨[b0, b1], by simp [hr], by simp, fun ext => by
      simp only [List.cons_append, List.nil_append, ParseInt16, ha]⟩

/-- Consumption and extension property for `ParseInt32`. -/
theorem ParseInt32_ok {l : List Nat} {a : Int} {r : List Nat}
    (h : ParseInt32 l = .ok (a, r)) :
    ∃ c, l = c ++ r ∧ 1 ≤ c.length ∧
      ∀ ext, ParseInt32 (c ++ ext) = .ok (a, ext) := by
  match l with
  | [] => simp [ParseInt32] at h
  | [b] => simp [ParseInt32] at h
  | [b, b1] => simp [ParseInt32] at h
  | [b, b1, b2] => simp [ParseInt32] at h
  | b0 :: b1 :: b2 :: b3 :: rest =>
    simp only [ParseInt32, Except.ok.injEq, Prod.mk.injEq] at h
    obtain ⟨ha, hr⟩ := h
    exact ⟨[b0, b1, b2, b3], by simp [hr], by simp, fun ext => by
      simp only [List.cons_append, List.nil_append, ParseInt32, ha]⟩

/-- The consumption and extension property of `parseAnyF` at a given
fuel: a successful parse consumed a nonempty prefix `c` of the input, and
reparsing `c` with any bytes appended, under any fuel of at least the
length of `c`, yields the same value and leaves the appendix untouched. -/
def AnyOk (fuel : Nat) : Prop :=
  ∀ l v r, parseAnyF fuel l = .ok (v, r) →
    ∃ c, l = c ++ r ∧ 1 ≤ c.length ∧
      ∀ fuel2 ext, c.length ≤ fuel2 → parseAnyF fuel2 (c ++ ext) = .ok (v, ext)

/-- Consumption and extension for the element loop, given the property
for the element parser; also: a successful loop returns exactly as many
values as the count demanded. -/
theorem parseElems_ok {fuel : Nat} (hany : AnyOk fuel) :
    ∀ k l vs r, parseElems (fun l2 => parseAnyF fuel l2) k l = .ok (vs, r) →
      vs.length = k ∧ ∃ c, l = c ++ r ∧
        ∀ fuel2 ext, c.length ≤ fuel2 →
          parseElems (fun l2 => parseAnyF fuel2 l2) k (c ++ ext) = .ok (vs, ext) := by
  intro k
  induction k with
  | zero =>
    intro l vs r h
    simp only [parseElems, Except.ok.injEq, Prod.mk.injEq] at h
    obtain ⟨hvs, hr⟩ := h
    subst hvs; subst hr
    exact ⟨rfl, [], by simp, fun fuel2 ext _ => by simp [parseElems]⟩
  | succ k ih =>
    intro l vs r h
    simp only [parseElems] at h
    cases hp : parseAnyF fuel l with
    | error e => simp only [hp] at h; exact Except.noConfusion h
    | ok pr =>
      obtain ⟨v1, r1⟩ := pr
      simp only [hp] at h
      cases he : parseElems (fun l2 => parseAnyF fuel l2) k r1 with
      | error e => simp only [he] at h; exact Except.noConfusion h
      | ok q =>
        obtain ⟨vs1, r2⟩ := q
        simp only [he, Except.ok.injEq, Prod.mk.injEq] at h
        obtain ⟨hvs, hr⟩ := h
        subst hvs; subst hr
        obtain ⟨c1, hsplit1, hlen1, hext1⟩ := hany l v1 r1 hp
        obtain ⟨hlen, c2, hsplit2, hext2⟩ := ih r1 vs1 r2 he
        refine ⟨by simp [hlen], c1 ++ c2, ?_, ?_⟩
        · rw [hsplit1, hsplit2, List.append_assoc]
        · intro fuel2 ext hf
          rw [List.length_append] at hf
          simp only [parseElems, List.append_assoc,
            hext1 fuel2 (c2 ++ ext) (by omega), hext2 fuel2 ext (by omega)]

/-- Consumption and extension for `ParseArrayWith`: the count byte is
read first and a successful parse returns a sequence of exactly that many
elements. -/
theorem parseArrayWith_ok {fuel : Nat} (hany : AnyOk fuel) {l : List Nat}
    {v : GoVal} {r : List Nat}
    (h : ParseArrayWith (fun l2 => parseAnyF fuel l2) l = .ok (v, r)) :
    ∃ n c xs, l = (n :: c) ++ r ∧ v = .arr xs ∧ xs.length = n ∧
      ∀ fuel2 ext, c.length ≤ fuel2 →
        ParseArrayWith (fun l2 => parseAnyF fuel2 l2) ((n :: c) ++ ext) = .ok (v, ext) := by
  match l with
  | [] => simp [ParseArrayWith] at h
  | n :: rest =>
    simp only [ParseArrayWith] at h
    cases he : parseElems (fun l2 => parseAnyF fuel l2) n rest with
    | error e => rw [he] at h; simp [Except.map] at h
    | ok q =>
      obtain ⟨xs, r2⟩ := q
      rw [he] at h
      simp only [Except.map, Except.ok.injEq, Prod.mk.injEq] at h
      obtain ⟨hv, hr⟩ := h
      subst hv; subst hr
      obtain ⟨hlen, c, hsplit, hext⟩ := parseElems_ok hany n rest xs _ he
      refine ⟨n, c, xs, by simp [hsplit], rfl, hlen, ?_⟩
      intro fuel2 ext hf
      simp only [List.cons_append, ParseArrayWith]
      simp only [hext fuel2 ext hf, Except.map]

/-- Consumption and extension for a scalar branch of the tag dispatch:
if the scalar parser has the property, so does its GoVal-wrapped form. -/
theorem scalar_step {A : Type} {P : List Nat → Except Err (A × List Nat)}
    {wrap : A → GoVal}
    (Pok : ∀ {l : List Nat} {a : A} {r : List Nat}, P l = .ok (a, r) →
      ∃ c, l = c ++ r ∧ 1 ≤ c.length ∧ ∀ ext, P (c ++ ext) = .ok (a, ext))
    {rest : List Nat} {v : GoVal} {r : List Nat}
    (h : (P rest).map (fun q => (wrap q.1, q.2)) = .ok (v, r)) :
    ∃ c, rest = c ++ r ∧ 1 ≤ c.length ∧
      ∀ ext, (P (c ++ ext)).map (fun q => (wrap q.1, q.2)) = .ok (v, ext) := by
  cases hc : P rest with
  | error e => rw [hc] at h; simp [Except.map] at h
  | ok q =>
    obtain ⟨a, r2⟩ := q
    rw [hc] at h
    simp only [Except.map, Except.ok.injEq, Prod.mk.injEq] at h
    obtain ⟨hv, hr⟩ := h
    subst hv; subst hr
    obtain ⟨c, hsplit, hlen, hext⟩ := Pok hc
    exact ⟨c, hsplit, hlen, fun ext => by rw [hext ext]; rfl⟩

set_option maxHeartbeats 1600000 in
/-- The consumption and extension property holds at every fuel. -/
theorem anyOk_all : ∀ fuel, AnyOk fuel := by
  intro fuel
  induction fuel with
  | zero => intro l v r h; simp [parseAnyF_zero] at h
  | succ f ih =>
    intro l v r h
    match l with
    | [] => simp [parseAnyF_succ_nil] at h
    | t :: rest =>
      rw [parseAnyF_succ] at h
      by_cases h0 : t = 0
      · -- tag 0: null, nothing consumed beyond the tag
        rw [if_pos h0] at h
        simp only [Except.ok.injEq, Prod.mk.injEq] at h
        obtain ⟨hv, hr⟩ := h
        subst hv; subst hr
        refine ⟨[t], by simp, by simp, ?_⟩
        intro fuel2 ext hf
        match fuel2, hf with
        | f2 + 1, _ =>
          show parseAnyF (f2 + 1) (t :: ext) = .ok (.goNil, ext)
          rw [parseAnyF_succ, if_pos h0]
      rw [if_neg h0] at h
      by_cases h12 : t = 1 ∨ t = 2
      · -- tags 1 and 2: array and structure
        rw [if_pos h12] at h
        obtain ⟨n, c, xs, hsplit, hv, hxs, hext⟩ := parseArrayWith_ok ih h
        subst hv
        refine ⟨t :: n :: c, by simp [hsplit], by simp, ?_⟩
        intro fuel2 ext hf
        simp only [List.length_cons] at hf
        match fuel2, hf with
        | f2 + 1, hf2 =>
          show parseAnyF (f2 + 1) (t :: ((n :: c) ++ ext)) = _
          rw [parseAnyF_succ, if_neg h0, if_pos h12]
          exact hext f2 ext (by omega)
      rw [if_neg h12] at h
      by_cases h9 : t = 9
      · rw [if_pos h9] at h
        obtain ⟨c, hsplit, hlen, hext⟩ := scalar_step (fun hh => ParseCode_ok hh) h
        refine ⟨t :: c, by simp [hsplit], by simp, ?_⟩
        intro fuel2 ext hf
        match fuel2, hf with
        | f2 + 1, _ =>
          show parseAnyF (f2 + 1) (t :: (c ++ ext)) = _
          rw [parseAnyF_succ, if_neg h0, if_neg h12, if_pos h9]
          exact hext ext
      rw [if_neg h9] at h
      by_cases h1012 : t = 10 ∨ t = 12
      · rw [if_pos h1012] at h
        obtain ⟨c, hsplit, hlen, hext⟩ := scalar_step (fun hh => ParseString_ok hh) h
        refine ⟨t :: c, by simp [hsplit], by simp, ?_⟩
        intro fuel2 ext hf
        match fuel2, hf with
        | f2 + 1, _ =>
          show parseAnyF (f2 + 1) (t :: (c ++ ext)) = _
          rw [parseAnyF_succ, if_neg h0, if_neg h12, if_neg h9, if_pos h1012]
          exact hext ext
      rw [if_neg h1012] at h
      by_cases h15 : t = 15
      · rw [if_pos h15] at h
        obtain ⟨c, hsplit, hlen, hext⟩ := scalar_step (fun hh => ParseInt8_ok hh) h
        refine ⟨t :: c, by simp [hsplit], by simp, ?_⟩
        intro fuel2 ext hf
        match fuel2, hf with
        | f2 + 1, _ =>
          show parseAnyF (f2 + 1) (t :: (c ++ ext)) = _
          rw [parseAnyF_succ, if_neg h0, if_neg h12, if_neg h9, if_neg h1012,
            if_pos h15]
          exact hext ext
      rw [if_neg h15] at h
      by_cases h16 : t = 16
      · rw [if_pos h16] at h
        obtain ⟨c, hsplit, hlen, hext⟩ := scalar_step (fun hh => ParseInt16_ok hh) h
        refine ⟨t :: c, by simp [hsplit], by simp, ?_⟩
        intro fuel2 ext hf
        match fuel2, hf with
        | f2 + 1, _ =>
          show parseAnyF (f2 + 1) (t :: (c ++ ext)) = _
          rw [parseAnyF_succ, if_neg h0, if_neg h12, if_neg h9, if_neg h1012,
            if_neg h15, if_pos h16]
          exact hext ext
      rw [if_neg h16] at h
      by_cases h17 : t = 17
      · rw [if_pos h17] at h
        obtain ⟨c, hsplit, hlen, hext⟩ := scalar_step (fun hh => ParseUint8_ok hh) h
        refine ⟨t :: c, by simp [hsplit], by simp, ?_⟩
        intro fuel2 ext hf
        match fuel2, hf with
        | f2 + 1, _ =>
          show parseAnyF (f2 + 1) (t :: (c ++ ext)) = _
          rw [parseAnyF_succ, if_neg h0, if_neg h12, if_neg h9, if_neg h1012,
            if_neg h15, if_neg h16, if_pos h17]
          exact hext ext
      rw [if_neg h17] at h
      by_cases h18 : t = 18
      · rw [if_pos h18] at h
        obtain ⟨c, hsplit, hlen, hext⟩ := scalar_step (fun hh => ParseUint16_ok hh) h
        refine ⟨t :: c, by simp [hsplit], by simp, ?_⟩
        intro fuel2 ext hf
        match fuel2, hf with
        | f2 + 1, _ =>
          show parseAnyF (f2 + 1) (t :: (c ++ ext)) = _
          rw [parseAnyF_succ, if_neg h0, if_neg h12, if_neg h9, if_neg h1012,
            if_neg h15, if_neg h16, if_neg h17, if_pos h18]
          exact hext ext
      rw [if_neg h18] at h
      by_cases h5 : t = 5
      · rw [if_pos h5] at h
        obtain ⟨c, hsplit, hlen, hext⟩ := scalar_step (fun hh => ParseInt32_ok hh) h
        refine ⟨t :: c, by simp [hsplit], by simp, ?_⟩
        intro fuel2 ext hf
        match fuel2, hf with
        | f2 + 1, _ =>
          show parseAnyF (f2 + 1) (t :: (c ++ ext)) = _
          rw [parseAnyF_succ, if_neg h0, if_neg h12, if_neg h9, if_neg h1012,
            if_neg h15, if_neg h16, if_neg h17, if_neg h18, if_pos h5]
          exact hext ext
      rw [if_neg h5] at h
      by_cases h6 : t = 6
      · rw [if_pos h6] at h
        obtain ⟨c, hsplit, hlen, hext⟩ := scalar_step (fun hh => ParseUint32_ok hh) h
        refine ⟨t :: c, by simp [hsplit], by simp, ?_⟩
        intro fuel2 ext hf
        match fuel2, hf with
        | f2 + 1, _ =>
          show parseAnyF (f2 + 1) (t :: (c ++ ext)) = _
          rw [parseAnyF_succ, if_neg h0, if_neg h12, if_neg h9, if_neg h1012,
            if_neg h15, if_neg h16, if_neg h17, if_neg h18, if_neg h5, if_pos h6]
          exact hext ext
      rw [if_neg h6] at h
      by_cases h22 : t = 22
      · rw [if_pos h22] at h
        obtain ⟨c, hsplit, hlen, hext⟩ := scalar_step (fun hh => ParseEnum_ok hh) h
        refine ⟨t :: c, by simp [hsplit], by simp, ?_⟩
        intro fuel2 ext hf
        match fuel2, hf with
        | f2 + 1, _ =>
          show parseAnyF (f2 + 1) (t :: (c ++ ext)) = _
          rw [parseAnyF_succ, if_neg h0, if_neg h12, if_neg h9, if_neg h1012,
            if_neg h15, if_neg h16, if_neg h17, if_neg h18, if_neg h5, if_neg h6,
            if_pos h22]
          exact hext ext
      rw [if_neg h22] at h
      exact absurd h (by simp)

/-- Inversion for `keyVal`: it returns a pair exactly for an element of
the shape the flattener accepts. -/
theorem keyVal_some {item : GoVal} {k : String} {v : GoVal}
    (h : keyVal item = some (k, v)) :
    ∃ t, item = GoVal.arr (.str k :: v :: t) := by
  cases item with
  | arr xs =>
    rcases xs with _ | ⟨x, _ | ⟨y, t⟩⟩
    · simp [keyVal] at h
    · cases x <;> simp [keyVal] at h
    · cases x <;> simp [keyVal] at h
      rename_i k2
      obtain ⟨rfl, rfl⟩ := h
      exact ⟨t, rfl⟩
  | goNil => simp [keyVal] at h
  | str s => simp [keyVal] at h
  | u8 a => simp [keyVal] at h
  | u16 a => simp [keyVal] at h
  | u32 a => simp [keyVal] at h
  | i8 a => simp [keyVal] at h
  | i16 a => simp [keyVal] at h
  | i32 a => simp [keyVal] at h

/-- Inversion for one step of the flatten loop: success on a nonempty
list means the head had the accepted shape and the loop continued with
the updated map. -/
theorem flattenItems_cons_ok {acc : List (String × GoVal)} {m : List (String × GoVal)}
    {item : GoVal} {rest : List GoVal}
    (h : flattenItems acc (item :: rest) = .ok m) :
    ∃ k v t, item = GoVal.arr (.str k :: v :: t) ∧
      flattenItems (mapSet acc k v) rest = .ok m := by
  cases item with
  | arr xs =>
    rcases xs with _ | ⟨x, _ | ⟨y, t⟩⟩
    · simp [flattenItems] at h
    · cases x <;> simp [flattenItems] at h
    · cases x <;> simp [flattenItems] at h
      rename_i k2
      exact ⟨k2, y, t, rfl, h⟩
  | goNil => simp [flattenItems] at h
  | str s => simp [flattenItems] at h
  | u8 a => simp [flattenItems] at h
  | u16 a => simp [flattenItems] at h
  | u32 a => simp [flattenItems] at h
  | i8 a => simp [flattenItems] at h
  | i16 a => simp [flattenItems] at h
  | i32 a => simp [flattenItems] at h

/-- Every element of a successfully flattened list has the accepted
shape: a Go slice whose first entry is a Go string. -/
theorem flattenItems_ok_shape :
    ∀ (items : List GoVal) (acc m : List (String × GoVal)),
      flattenItems acc items = .ok m →
      ∀ it ∈ items, ∃ k v t, it = GoVal.arr (.str k :: v :: t) := by
  intro items
  induction items with
  | nil => intro acc m _ it hit; simp at hit
  | cons item rest ih =>
    intro acc m h it hit
    obtain ⟨k, v, t, hitem, hrest⟩ := flattenItems_cons_ok h
    rcases List.mem_cons.mp hit with rfl | hmem
    · exact ⟨k, v, t, hitem⟩
    · exact ih _ _ hrest it hmem

/-- Inserting a key not already present appends the pair. -/
theorem mapSet_not_mem {acc : List (String × GoVal)} {k : String} {v : GoVal}
    (h : ∀ p ∈ acc, p.1 ≠ k) : mapSet acc k v = acc ++ [(k, v)] := by
  induction acc with
  | nil => rfl
  | cons p rest ih =>
    obtain ⟨k0, v0⟩ := p
    simp only [mapSet]
    rw [if_neg (h (k0, v0) (by simp))]
    rw [ih (fun q hq => h q (by simp [hq]))]
    simp

/-- A filterMap by a function that is `some` on every element keeps the
length. -/
theorem length_filterMap_allSome {A B : Type} (f : A → Option B) :
    ∀ l : List A, (∀ x ∈ l, (f x).isSome) → (l.filterMap f).length = l.length := by
  intro l
  induction l with
  | nil => simp
  | cons x rest ih =>
    intro hs
    have hx := hs x (by simp)
    rcases hfx : f x with _ | b
    · rw [hfx] at hx; simp at hx
    · simp [List.filterMap_cons, hfx, ih (fun y hy => hs y (by simp [hy]))]

/-- The flatten loop on a list of well-shaped elements with pairwise
distinct keys appends one entry per element to the accumulator. -/
theorem flattenItems_wf :
    ∀ (items : List GoVal) (acc : List (String × GoVal)),
      (∀ it ∈ items, (keyVal it).isSome) →
      ((items.filterMap keyVal).map Prod.fst).Nodup →
      (∀ p ∈ acc, ∀ q ∈ items.filterMap keyVal, p.1 ≠ q.1) →
      flattenItems acc items = .ok (acc ++ items.filterMap keyVal) := by
  intro items
  induction items with
  | nil => intro acc _ _ _; simp [flattenItems]
  | cons item rest ih =>
    intro acc hsome hnd hdisj
    have hx := hsome item (by simp)
    rcases hkv : keyVal item with _ | q
    · rw [hkv] at hx; simp at hx
    · obtain ⟨k, v⟩ := q
      obtain ⟨t, rfl⟩ := keyVal_some hkv
      have hfc : ((GoVal.arr (.str k :: v :: t)) :: rest).filterMap keyVal =
          (k, v) :: rest.filterMap keyVal := by
        simp [List.filterMap_cons, hkv]
      rw [hfc] at hnd hdisj ⊢
      simp only [List.map_cons, List.nodup_cons] at hnd
      obtain ⟨hknot, hndrest⟩ := hnd
      have hnotin : ∀ p ∈ acc, p.1 ≠ k :=
        fun p hp => hdisj p hp (k, v) (by simp)
      show flattenItems (mapSet acc k v) rest = _
      rw [mapSet_not_mem hnotin]
      rw [ih (acc ++ [(k, v)])
        (fun it hit => hsome it (by simp [hit]))
        hndrest
        ?_]
      · simp
      · intro p hp q hq
        rcases List.mem_append.mp hp with hpa | hpk
        · exact hdisj p hpa q (by simp [hq])
        · have : p = (k, v) := by simpa using hpk
          subst this
          intro hkq
          have hq1 : q.1 = k := by simpa using hkq.symm
          exact hknot (hq1 ▸ List.mem_map.mpr ⟨q, hq, rfl⟩)

/-- Byte record consisting of n nested one-element arrays around a null:
tag 1, count 1, repeated n times, then tag 0. -/
def deepBytes : Nat → List Nat
  | 0 => [0]
  | n + 1 => 1 :: 1 :: deepBytes n

/-- The value tree those bytes decode to: n nested singleton sequences
around the null value. -/
def deepVal : Nat → GoVal
  | 0 => .goNil
  | n + 1 => .arr [deepVal n]

/-- Identifier-string predicate (from the spec): a string that is the
canonical rendering of some 6-byte OBIS code. -/
def isIdentString (s : String) : Prop :=
  ∃ b0 b1 b2 b3 b4 b5 : Nat, s = renderCode b0 b1 b2 b3 b4 b5

/-- Every rendered identifier contains the dash separator. -/
theorem dash_mem_renderCode (b0 b1 b2 b3 b4 b5 : Nat) :
    '-' ∈ (renderCode b0 b1 b2 b3 b4 b5).data := by
  simp [renderCode]

/-- C1 counterexample: the record as literally described — without the
identifier length byte and without an enclosing one-element sequence —
does not flatten to the claimed mapping.  The literal bytes fail with the
`not a code` error (the byte after tag 9 is taken as the length, which is
1, not 6); even with the length byte 6 inserted, the top-level sequence
is the triple itself, whose first element is a string and not a
sub-sequence, so flattening fails with the sub-level-not-array error. -/
theorem C1_counterexample :
    ParseFlattened [2, 3, 9, 1, 0, 32, 7, 0, 255, 18, 9, 196, 1, 2, 17, 255, 22, 35] =
        .error .notACode ∧
    ParseFlattened [2, 3, 9, 6, 1, 0, 32, 7, 0, 255, 18, 9, 196, 1, 2, 17, 255, 22, 35] =
        .error .subLevelNotArray := ⟨rfl, rfl⟩

/-- C1 (amended): the byte record encoding the one-element sequence
`[["1-0:32.7.0.255", 2500, [255, 35]]]` — tag 2 count 1; tag 2 count 3;
tag 9, length 6, the six identifier bytes; tag 18 with two big-endian
bytes encoding 2500; tag 1 count 2 with tag 17 byte 255 and tag 22 byte
35 — flattens to exactly the mapping from "1-0:32.7.0.255" to the
16-bit value 2500, the nested `[255, unit]` sub-sequence being discarded
as the third member. -/
theorem C1_scenario_flattens :
    ParseFlattened [2, 1, 2, 3, 9, 6, 1, 0, 32, 7, 0, 255, 18, 9, 196, 1, 2, 17, 255, 22, 35] =
      .ok [("1-0:32.7.0.255", GoVal.u16 2500)] := rfl

/-- C2 counterexample: an element whose first member is a Text value
(wire tag 10) is not rejected with the key-not-string error — flattening
succeeds with the text as the key, because Text decodes to a Go string
just like an Identifier does. -/
theorem C2_counterexample :
    ParseFlattened [2, 1, 2, 2, 10, 1, 97, 17, 5] = .ok [("a", GoVal.u8 5)] ∧
    ParseFlattened [2, 1, 2, 2, 10, 1, 97, 17, 5] ≠ .error .keyNotString := by
  refine ⟨rfl, ?_⟩
  intro hc
  have h1 : ParseFlattened [2, 1, 2, 2, 10, 1, 97, 17, 5] = .ok [("a", GoVal.u8 5)] := rfl
  rw [h1] at hc
  exact Except.noConfusion hc

/-- C2 (amended): for each element of the top-level sequence the
flattener fails with the sub-level-not-array error when the element is
not itself a sequence, with the too-few-entries error when it has fewer
than two members, and with the key-not-string error exactly when its
first member is not a Go string; since Identifier, Text and Unit values
all decode to Go strings, a Text or Unit first member is accepted as a
key rather than rejected. -/
theorem C2_flatten_element_checks :
    (∀ (acc : List (String × GoVal)) (item : GoVal) (rest : List GoVal),
      (∀ xs, item ≠ .arr xs) →
      flattenItems acc (item :: rest) = .error .subLevelNotArray) ∧
    (∀ (acc : List (String × GoVal)) (xs rest : List GoVal),
      xs.length < 2 →
      flattenItems acc (.arr xs :: rest) = .error .tooFewEntries) ∧
    (∀ (acc : List (String × GoVal)) (x y : GoVal) (t rest : List GoVal),
      (∀ s, x ≠ .str s) →
      flattenItems acc (.arr (x :: y :: t) :: rest) = .error .keyNotString) ∧
    (∀ (acc : List (String × GoVal)) (k : String) (v : GoVal) (t rest : List GoVal),
      flattenItems acc (.arr (.str k :: v :: t) :: rest) =
        flattenItems (mapSet acc k v) rest) := by
  refine ⟨?_, ?_, ?_, fun acc k v t rest => rfl⟩
  · intro acc item rest hna
    cases item with
    | arr xs => exact absurd rfl (hna xs)
    | goNil => rfl
    | str s => rfl
    | u8 a => rfl
    | u16 a => rfl
    | u32 a => rfl
    | i8 a => rfl
    | i16 a => rfl
    | i32 a => rfl
  · intro acc xs rest hlen
    rcases xs with _ | ⟨x, _ | ⟨y, t⟩⟩
    · rfl
    · cases x <;> rfl
    · simp only [List.length_cons] at hlen; omega
  · intro acc x y t rest hns
    cases x with
    | str s => exact absurd rfl (hns s)
    | goNil => rfl
    | arr xs => rfl
    | u8 a => rfl
    | u16 a => rfl
    | u32 a => rfl
    | i8 a => rfl
    | i16 a => rfl
    | i32 a => rfl

/-- C2 witness: the element checks at concrete inputs. -/
theorem C2_witness :
    flattenItems [] [GoVal.u8 3] = .error .subLevelNotArray ∧
    flattenItems [] [GoVal.arr []] = .error .tooFewEntries ∧
    flattenItems [] [GoVal.arr [GoVal.u8 1, GoVal.u8 2]] = .error .keyNotString ∧
    flattenItems [] [GoVal.arr [GoVal.str "a", GoVal.u8 1, GoVal.goNil]] =
      flattenItems (mapSet [] "a" (GoVal.u8 1)) [] :=
  ⟨C2_flatten_element_checks.1 [] (GoVal.u8 3) [] (fun xs h => GoVal.noConfusion h),
   C2_flatten_element_checks.2.1 [] [] [] (by simp),
   C2_flatten_element_checks.2.2.1 [] (GoVal.u8 1) (GoVal.u8 2) [] []
     (fun s h => GoVal.noConfusion h),
   C2_flatten_element_checks.2.2.2 [] "a" (GoVal.u8 1) [GoVal.goNil] []⟩

/-- C3 counterexample: the decoder has no recursion depth cap.  A record
with 33 nested array levels — beyond the claimed cap of 32 — decodes
successfully to the 33-deep nested sequence; it does not fail with any
error, so in particular not with an excessive-nesting error (the error
type of the code has no such variant). -/
theorem C3_counterexample :
    ParseAny (deepBytes 33) = .ok (deepVal 33, []) ∧
    ∀ e : Err, ParseAny (deepBytes 33) ≠ .error e := by
  refine ⟨rfl, ?_⟩
  intro e hc
  have h1 : ParseAny (deepBytes 33) = .ok (deepVal 33, []) := rfl
  rw [h1] at hc
  exact Except.noConfusion hc

/-- C3 (amended): the Value Decoder imposes no explicit recursion depth
limit and has no excessive-nesting error; nesting is bounded only by the
input itself, since each level consumes bytes.  For every depth n, the
record of n nested one-element arrays around a null decodes successfully
to the n-deep nested sequence value. -/
theorem C3_no_depth_cap : ∀ n : Nat, ParseAny (deepBytes n) = .ok (deepVal n, []) := by
  intro n
  induction n with
  | zero => rfl
  | succ n ih =>
    obtain ⟨c, hsplit, hlen, hext⟩ := anyOk_all (deepBytes n).length (deepBytes n) _ _ ih
    have hc : c = deepBytes n := by simpa using hsplit.symm
    subst hc
    have hstep : parseAnyF ((deepBytes n).length + 1) (deepBytes n) =
        .ok (deepVal n, []) := by
      have hx := hext ((deepBytes n).length + 1) [] (Nat.le_succ _)
      simpa using hx
    show parseAnyF (1 :: 1 :: deepBytes n).length (1 :: 1 :: deepBytes n) =
      .ok (.arr [deepVal n], [])
    simp only [List.length_cons]
    rw [parseAnyF_succ]
    rw [if_neg (by decide), if_pos (by decide)]
    simp only [ParseArrayWith, parseElems, hstep, Except.map]

/-- C4 counterexample: a well-formed top-level sequence with two
elements carrying the same identifier flattens to a single-entry map
(the Go map overwrites, last write wins), not to one entry per element. -/
theorem C4_counterexample :
    ParseFlattened [2, 2, 2, 2, 9, 6, 1, 0, 1, 7, 0, 255, 17, 1,
        2, 2, 9, 6, 1, 0, 1, 7, 0, 255, 17, 2] =
      .ok [("1-0:1.7.0.255", GoVal.u8 2)] ∧
    ([("1-0:1.7.0.255", GoVal.u8 2)] : List (String × GoVal)).length = 1 :=
  ⟨rfl, rfl⟩

/-- C4 (amended): for every well-formed top-level sequence in which
every element is a sequence of length at least 2 whose first member is a
Go string (as every valid Identifier is), and in which the key strings of
the elements are pairwise distinct, the flattener succeeds and returns
the mapping with exactly one entry per element, keyed by that first
member string; when two elements carry the same key the map keeps a
single entry for it, the last write winning. -/
theorem C4_flatten_wellformed (items : List GoVal)
    (hsome : ∀ it ∈ items, (keyVal it).isSome)
    (hnd : ((items.filterMap keyVal).map Prod.fst).Nodup) :
    flattenItems [] items = .ok (items.filterMap keyVal) ∧
    (items.filterMap keyVal).length = items.length := by
  constructor
  · simpa using flattenItems_wf items [] hsome hnd (by simp)
  · exact length_filterMap_allSome keyVal items hsome

/-- C4 witness at a concrete two-element record with distinct keys. -/
theorem C4_witness :
    flattenItems []
        [GoVal.arr [GoVal.str "a", GoVal.u8 1], GoVal.arr [GoVal.str "b", GoVal.u8 2]] =
      .ok (([GoVal.arr [GoVal.str "a", GoVal.u8 1],
        GoVal.arr [GoVal.str "b", GoVal.u8 2]] : List GoVal).filterMap keyVal) ∧
    (([GoVal.arr [GoVal.str "a", GoVal.u8 1],
        GoVal.arr [GoVal.str "b", GoVal.u8 2]] : List GoVal).filterMap keyVal).length =
      ([GoVal.arr [GoVal.str "a", GoVal.u8 1],
        GoVal.arr [GoVal.str "b", GoVal.u8 2]] : List GoVal).length :=
  C4_flatten_wellformed _ (by decide) (by decide)

/-- C5: a successful decode consumed exactly a nonempty prefix of the
input and left the cursor immediately after it; reparsing that prefix
with any bytes appended yields the same value with the appendix
untouched (nothing past the declared extent is read); and when the input
starts with an array or structure tag, the count byte that follows is
exactly the number of decoded elements. -/
theorem C5_parseAny_consumes_exactly (l : List Nat) (v : GoVal) (r : List Nat)
    (h : ParseAny l = .ok (v, r)) :
    ∃ c, l = c ++ r ∧ c ≠ [] ∧
      (∀ ext, ParseAny (c ++ ext) = .ok (v, ext)) ∧
      (∀ n rest, l = 1 :: n :: rest ∨ l = 2 :: n :: rest →
        ∃ xs, v = .arr xs ∧ xs.length = n) := by
  obtain ⟨c, hsplit, hlen, hext⟩ := anyOk_all l.length l v r h
  refine ⟨c, hsplit, ?_, ?_, ?_⟩
  · intro hc; subst hc; simp at hlen
  · intro ext
    show parseAnyF (c ++ ext).length (c ++ ext) = .ok (v, ext)
    exact hext (c ++ ext).length ext (by simp)
  · intro n rest hlr
    have harr : ParseArrayWith (fun l2 => parseAnyF (rest.length + 1) l2) (n :: rest) =
        .ok (v, r) := by
      rcases hlr with hl | hl <;>
        (subst hl
         unfold ParseAny at h
         simp only [List.length_cons] at h
         rw [parseAnyF_succ] at h
         simpa using h)
    obtain ⟨n2, c2, xs, hsplit2, hv, hxs, _⟩ := parseArrayWith_ok (anyOk_all _) harr
    have hn : n2 = n := by
      simp only [List.cons_append, List.cons.injEq] at hsplit2
      exact hsplit2.1.symm
    exact ⟨xs, hv, hn ▸ hxs⟩

/-- C5 witness at a concrete uint8 record with a trailing byte. -/
theorem C5_witness :
    ∃ c, ([17, 5, 99] : List Nat) = c ++ [99] ∧ c ≠ [] ∧
      (∀ ext, ParseAny (c ++ ext) = .ok (GoVal.u8 5, ext)) ∧
      (∀ n rest, ([17, 5, 99] : List Nat) = 1 :: n :: rest ∨
          ([17, 5, 99] : List Nat) = 2 :: n :: rest →
        ∃ xs, GoVal.u8 5 = .arr xs ∧ xs.length = n) :=
  C5_parseAny_consumes_exactly [17, 5, 99] (GoVal.u8 5) [99] rfl

/-- C6 counterexample: with declared length 7 but only two bytes
following, the identifier decoder fails with the truncation error, not
with the not-a-code (malformed identifier) error — the bytes are read
before the length-equals-6 check. -/
theorem C6_counterexample :
    ParseCode [7, 0, 0] = .error .truncated ∧
    ParseCode [7, 0, 0] ≠ .error .notACode := by
  refine ⟨rfl, ?_⟩
  intro hc
  have h1 : ParseCode [7, 0, 0] = .error .truncated := rfl
  rw [h1] at hc
  simp at hc

/-- C6 (amended): the identifier decoder reads one length byte n
followed by n bytes; when the n bytes are available and n is not 6 it
fails with the not-a-code error; when fewer than n bytes are available
it fails with the truncation error (the read happens before the length
check); and when n is 6 with all six bytes available it succeeds,
rendering the six component bytes in the dash-colon-dot pattern. -/
theorem C6_parseCode_spec :
    (∀ (n : Nat) (rest : List Nat), n ≠ 6 → n ≤ rest.length →
      ParseCode (n :: rest) = .error .notACode) ∧
    (∀ (n : Nat) (rest : List Nat), rest.length < n →
      ParseCode (n :: rest) = .error .truncated) ∧
    (∀ (b0 b1 b2 b3 b4 b5 : Nat) (r : List Nat),
      ParseCode (6 :: b0 :: b1 :: b2 :: b3 :: b4 :: b5 :: r) =
        .ok (renderCode b0 b1 b2 b3 b4 b5, r)) := by
  refine ⟨?_, ?_, ?_⟩
  · intro n rest h6 hle
    simp only [ParseCode]
    rw [if_pos hle, if_neg h6]
  · intro n rest hlt
    simp only [ParseCode]
    rw [if_neg (by omega)]
  · intro b0 b1 b2 b3 b4 b5 r
    simp only [ParseCode]
    rw [if_pos (by simp only [List.length_cons]; omega)]
    simp

/-- C6 witness at concrete inputs for all three behaviors. -/
theorem C6_witness :
    ParseCode [3, 9, 9, 9] = .error .notACode ∧
    ParseCode [5, 1] = .error .truncated ∧
    ParseCode [6, 1, 0, 32, 7, 0, 255] = .ok (renderCode 1 0 32 7 0 255, []) :=
  ⟨C6_parseCode_spec.1 3 [9, 9, 9] (by decide) (by decide),
   C6_parseCode_spec.2.1 5 [1] (by decide),
   C6_parseCode_spec.2.2 1 0 32 7 0 255 []⟩

/-- C7: the unit decoder reads one byte and succeeds exactly for the
seven codes 27, 28, 29, 30, 32, 33, 35, mapped to W, VA, VAr, Wh, VArh,
A, V respectively; every other byte fails with the unknown-enum error
carrying that code. -/
theorem C7_parseEnum_spec :
    (∀ rest : List Nat, ParseEnum (27 :: rest) = .ok ("W", rest)) ∧
    (∀ rest : List Nat, ParseEnum (28 :: rest) = .ok ("VA", rest)) ∧
    (∀ rest : List Nat, ParseEnum (29 :: rest) = .ok ("VAr", rest)) ∧
    (∀ rest : List Nat, ParseEnum (30 :: rest) = .ok ("Wh", rest)) ∧
    (∀ rest : List Nat, ParseEnum (32 :: rest) = .ok ("VArh", rest)) ∧
    (∀ rest : List Nat, ParseEnum (33 :: rest) = .ok ("A", rest)) ∧
    (∀ rest : List Nat, ParseEnum (35 :: rest) = .ok ("V", rest)) ∧
    (∀ (b : Nat) (rest : List Nat),
      b ∉ ([27, 28, 29, 30, 32, 33, 35] : List Nat) →
      ParseEnum (b :: rest) = .error (.unknownEnum b)) := by
  refine ⟨fun rest => rfl, fun rest => rfl, fun rest => rfl, fun rest => rfl,
    fun rest => rfl, fun rest => rfl, fun rest => rfl, ?_⟩
  intro b rest hb
  simp only [List.mem_cons, List.not_mem_nil, or_false, not_or] at hb
  obtain ⟨h27, h28, h29, h30, h32, h33, h35⟩ := hb
  simp only [ParseEnum]
  rw [if_neg h27, if_neg h28, if_neg h29, if_neg h30, if_neg h32, if_neg h33,
    if_neg h35]

/-- C7 witness: byte 31 is rejected with its code; byte 27 maps to W. -/
theorem C7_witness :
    ParseEnum [31] = .error (.unknownEnum 31) ∧ ParseEnum [27, 9] = .ok ("W", [9]) :=
  ⟨C7_parseEnum_spec.2.2.2.2.2.2.2 31 [] (by decide), C7_parseEnum_spec.1 [9]⟩

/-- C8: the tag set of the Value Decoder is closed — every first byte
outside the set 0, 1, 2, 5, 6, 9, 10, 12, 15, 16, 17, 18, 22 makes the
decode fail with the unrecognized-type error carrying that tag — and tag
0 returns the null value consuming nothing beyond the tag byte. -/
theorem C8_tag_set_closed :
    (∀ (t : Nat) (rest : List Nat),
      t ∉ ([0, 1, 2, 5, 6, 9, 10, 12, 15, 16, 17, 18, 22] : List Nat) →
      ParseAny (t :: rest) = .error (.unrecognizedType t)) ∧
    (∀ rest : List Nat, ParseAny (0 :: rest) = .ok (.goNil, rest)) := by
  constructor
  · intro t rest ht
    simp only [List.mem_cons, List.not_mem_nil, or_false, not_or] at ht
    obtain ⟨h0, h1, h2, h5, h6, h9, h10, h12, h15, h16, h17, h18, h22⟩ := ht
    show parseAnyF (rest.length + 1) (t :: rest) = .error (.unrecognizedType t)
    rw [parseAnyF_succ]
    rw [if_neg h0, if_neg (not_or.mpr ⟨h1, h2⟩), if_neg h9,
      if_neg (not_or.mpr ⟨h10, h12⟩), if_neg h15, if_neg h16, if_neg h17,
      if_neg h18, if_neg h5, if_neg h6, if_neg h22]
  · intro rest
    show parseAnyF (rest.length + 1) (0 :: rest) = .ok (.goNil, rest)
    rw [parseAnyF_succ, if_pos rfl]

/-- C8 witness: tag 3 is rejected; tag 0 decodes to null. -/
theorem C8_witness :
    ParseAny [3, 1] = .error (.unrecognizedType 3) ∧
    ParseAny [0, 5] = .ok (.goNil, [5]) :=
  ⟨C8_tag_set_closed.1 3 [1] (by decide), C8_tag_set_closed.2 [5]⟩

/-- C9 counterexample: a record whose single element has a Unit first
member (wire tag 22, code 27) flattens successfully, so a FlatRecord
can reach the consumer whose key "W" is not the rendering of any 6-byte
identifier — full validation does not include identifier-ness. -/
theorem C9_counterexample :
    ParseFlattened [2, 1, 2, 2, 22, 27, 17, 5] = .ok [("W", GoVal.u8 5)] ∧
    ¬ isIdentString "W" := by
  refine ⟨rfl, ?_⟩
  intro hid
  obtain ⟨b0, b1, b2, b3, b4, b5, hs⟩ := hid
  have hd : '-' ∈ ("W" : String).data := by
    rw [hs]; exact dash_mem_renderCode b0 b1 b2 b3 b4 b5
  exact absurd hd (by decide)

/-- C9 (amended): on any error no FlatRecord is produced at all — the
flattener returns the error and no mapping, never a partial one — and
every successfully produced FlatRecord passed the flattener's full
validation: the top-level decoded value was a sequence and every element
was a sequence of length at least 2 whose first member is a Go string
(produced by Identifier, Text or Unit decoding — not necessarily an
Identifier). -/
theorem C9_queue_records_validated (l : List Nat) (m : List (String × GoVal))
    (h : ParseFlattened l = .ok m) :
    ∃ items r, ParseAny l = .ok (.arr items, r) ∧
      ∀ it ∈ items, ∃ k v t, it = GoVal.arr (.str k :: v :: t) := by
  unfold ParseFlattened at h
  cases hp : ParseAny l with
  | error e => rw [hp] at h; exact Except.noConfusion h
  | ok q =>
    obtain ⟨data, r⟩ := q
    rw [hp] at h
    cases data with
    | arr items =>
      exact ⟨items, r, rfl, flattenItems_ok_shape items [] m (by simpa using h)⟩
    | goNil => simp at h
    | str sv => simp at h
    | u8 a => simp at h
    | u16 a => simp at h
    | u32 a => simp at h
    | i8 a => simp at h
    | i16 a => simp at h
    | i32 a => simp at h

/-- C9 witness at a concrete well-formed record. -/
theorem C9_witness :
    ∃ items r,
      ParseAny [2, 1, 2, 2, 9, 6, 1, 0, 32, 7, 0, 255, 17, 5] = .ok (.arr items, r) ∧
      ∀ it ∈ items, ∃ k v t, it = GoVal.arr (.str k :: v :: t) :=
  C9_queue_records_validated [2, 1, 2, 2, 9, 6, 1, 0, 32, 7, 0, 255, 17, 5]
    [("1-0:32.7.0.255", GoVal.u8 5)] rfl

/-- C10: the decode-and-flatten result depends only on the prefix the
declared structure occupies — if flattening a record succeeds, appending
any further bytes (stale buffer contents after the frame) yields success
with the identical mapping, because no bytes beyond the decoded
top-level value are read. -/
theorem C10_parseFlattened_extension (l ext : List Nat) (m : List (String × GoVal))
    (h : ParseFlattened l = .ok m) :
    ParseFlattened (l ++ ext) = .ok m := by
  unfold ParseFlattened at h ⊢
  cases hp : ParseAny l with
  | error e => rw [hp] at h; exact Except.noConfusion h
  | ok q =>
    obtain ⟨data, r0⟩ := q
    rw [hp] at h
    obtain ⟨c, hsplit, hlen, hext⟩ := anyOk_all l.length l data r0 hp
    have hp2 : ParseAny (l ++ ext) = .ok (data, r0 ++ ext) := by
      show parseAnyF (l ++ ext).length (l ++ ext) = .ok (data, r0 ++ ext)
      rw [hsplit, List.append_assoc]
      exact hext _ (r0 ++ ext) (by simp only [List.length_append]; omega)
    rw [hp2]
    cases data with
    | arr items =>
      have hflat : flattenItems [] items = .ok m := by simpa using h
      simpa using hflat
    | goNil => simp at h
    | str sv => simp at h
    | u8 a => simp at h
    | u16 a => simp at h
    | u32 a => simp at h
    | i8 a => simp at h
    | i16 a => simp at h
    | i32 a => simp at h

/-- C10 witness: an empty top-level array with trailing stale bytes. -/
theorem C10_witness : ParseFlattened ([1, 0] ++ [7, 7]) = .ok [] :=
  C10_parseFlattened_extension [1, 0] [7, 7] [] rfl

end Aidon
